import Mathlib

/-!
Shallow embedding of `src/input_simulation.py` (whisper-writer).

The module defines `InputSimulator`, a strategy-selected text-injection
engine with four backends chosen by the configuration string
`post_processing.input_method`:

  - `pynput`    : direct key synthesis, one press/release per character;
  - `clipboard` : snapshot clipboard, copy text, paste hotkey, restore;
  - `ydotool`   : one-shot external command per `typewrite` call;
  - `dotool`    : persistent child process fed a two-line pipe protocol.

Side effects are modelled as explicit event traces (`Event`), fallible
external operations (clipboard reads/writes, spawning the one-shot
command) as boolean outcome oracles passed in as arguments, and the
mutable object state (`self.input_method`, `self.dotool_process`,
`self.keyboard`) as an explicit `SimState` record threaded through a
step function.  Numeric delays are rationals (the Python floats in play
are config values such as 0.02 and products by 1000; no float rounding
is relevant to any property considered here).  Formatted log strings
keep their static Python text with interpolated values elided, since no
property inspects a log message.
-/

namespace InputSimulation

/-- A key as seen by the pynput controller: a unicode character, or one
of the two named paste modifiers used by `_clipboard_modifier_key`. -/
inductive PKey where
  | ch (c : Char)
  | cmd
  | ctrl
deriving DecidableEq, Repr

/-- A line written to the persistent dotool child process.
`typedelay ms` models the Python f-string `"typedelay {interval * 1000}\n"`
and `typeText t` models `"type {text}\n"` (the numeric rendering of the
millisecond value is elided, the payload is kept exactly). -/
inductive PipeLine where
  | typedelay (ms : ℚ)
  | typeText (t : String)
deriving DecidableEq, Repr

/-- An argv element of an external command: a literal string, or the
rendering `str(q)` of a Python float (`msArg q`). -/
inductive Arg where
  | str (s : String)
  | msArg (q : ℚ)
deriving DecidableEq, Repr

/-- Observable effects of the simulator, in program order. -/
inductive Event where
  | press (k : PKey)
  | release (k : PKey)
  | sleep (d : ℚ)
  | log (msg : String)
  | clipRead
  | clipCopy (s : String)
  | pipeWrite (l : PipeLine)
  | pipeFlush
  | pipeRead
  | runCmd (args : List Arg)
  | kill (pid : Nat)
deriving DecidableEq, Repr

/-- Outcome oracle for `subprocess.run(command, check=True)`. -/
inductive RunOutcome where
  | success
  | nonzeroExit
  | spawnFailure
deriving DecidableEq, Repr

/-- How control leaves a call: normal return, `exit(code)`, or an
exception that no handler in the program catches.  The repository is a
single module and nothing in it catches `FileNotFoundError`, so a
`raised` result propagates out of the interpreter. -/
inductive ProcResult where
  | normal
  | exited (code : Nat)
  | raised
deriving DecidableEq, Repr

/-- `True` when the result ends the host process: an explicit `exit`
does, and so does an exception left uncaught by the whole program. -/
def terminatesHostProcess : ProcResult → Bool
  | .normal => false
  | .exited _ => true
  | .raised => true

/-- `run_command_or_exit_on_failure(command)` (lines 18-29): run the
command; on `CalledProcessError` print a message and `exit(1)`; a spawn
failure (`FileNotFoundError`) is not caught and propagates. -/
def run_command_or_exit_on_failure (command : List Arg) (outcome : RunOutcome) :
    List Event × ProcResult :=
  match outcome with
  | .success => ([.runCmd command], .normal)
  | .nonzeroExit => ([.runCmd command, .log "Error running command"], .exited 1)
  | .spawnFailure => ([.runCmd command], .raised)

/-- `_clipboard_modifier_key` (lines 156-160): cmd on darwin, ctrl
elsewhere.  The platform is passed as the boolean `darwin`. -/
def clipboard_modifier_key (darwin : Bool) : PKey :=
  if darwin then .cmd else .ctrl

/-- The loop body of `_typewrite_pynput` (lines 93-96): for each
character, press it, release it, then sleep the interval. -/
def pynputKeystrokes (chars : List Char) (interval : ℚ) : List Event :=
  match chars with
  | [] => []
  | c :: rest =>
      .press (.ch c) :: .release (.ch c) :: .sleep interval ::
        pynputKeystrokes rest interval

/-- `_typewrite_pynput(text, interval)` (lines 82-96).  The lazy
creation of `self.keyboard` is a state change with no observable event;
it is handled by the state machine below. -/
def typewrite_pynput (text : String) (interval : ℚ) : List Event :=
  pynputKeystrokes text.toList interval

/-- `_typewrite_dotool(text, interval)` (lines 180-191): write the
`typedelay` line, write the `type` line, flush. -/
def typewrite_dotool (text : String) (interval : ℚ) : List Event :=
  [.pipeWrite (.typedelay (interval * 1000)),
   .pipeWrite (.typeText text),
   .pipeFlush]

/-- `_typewrite_ydotool(text, interval)` (lines 162-178): a single
one-shot command `ydotool type --key-delay str(interval*1000) -- text`. -/
def typewrite_ydotool (text : String) (interval : ℚ) (outcome : RunOutcome) :
    List Event × ProcResult :=
  run_command_or_exit_on_failure
    [Arg.str "ydotool", Arg.str "type", Arg.str "--key-delay",
     Arg.msArg (interval * 1000), Arg.str "--", Arg.str text] outcome

/-- The events of the clipboard read attempt
(`previous_clipboard = pyperclip.paste()` with its logging,
lines 115-125).  `pasteRaises` is the oracle for `PyperclipException`;
`clip0` is the clipboard content, `none` modelling a `None` return. -/
def clipboardReadEvents (text : String) (pasteRaises : Bool)
    (clip0 : Option String) : List Event :=
  if pasteRaises then
    [.clipRead, .log "Clipboard input: failed to read clipboard; proceeding without restore"]
  else
    match clip0 with
    | none => [.clipRead, .log "Clipboard input: unable to read previous clipboard (None)"]
    | some v =>
        if v = text then
          [.clipRead, .log "Clipboard input: previous clipboard already matches new text"]
        else
          [.clipRead, .log "Clipboard input: captured previous clipboard"]

/-- The restore step (lines 145-152): if a readable previous value
differs from the written text, copy it back (a failure is only logged);
otherwise log that no restore is necessary.  Returns the events and the
final clipboard content (a raising copy leaves the content unchanged). -/
def clipboardRestore (text : String) (restoreRaises : Bool)
    (previous : Option String) : List Event × Option String :=
  match previous with
  | some v =>
      if v = text then
        ([.log "Clipboard input: no clipboard restore necessary"], some text)
      else if restoreRaises then
        ([.clipCopy v, .log "Clipboard input: failed to restore clipboard"], some text)
      else
        ([.clipCopy v, .log "Clipboard input: previous clipboard restored"], some v)
  | none => ([.log "Clipboard input: no clipboard restore necessary"], some text)

/-- `_typewrite_clipboard(text, interval)` (lines 98-154).  Arguments:
`darwin` selects the paste modifier; `available` is whether the
`pyperclip` import succeeded (`pyperclip is not None`); `pasteRaises`,
`copyRaises`, `restoreRaises` are the exception oracles of the three
clipboard calls in program order; `clip0` is the clipboard content
before the call.  Returns the event trace and the clipboard content
after the call. -/
def typewrite_clipboard (text : String) (interval : ℚ) (darwin : Bool)
    (available : Bool) (pasteRaises : Bool) (copyRaises : Bool)
    (restoreRaises : Bool) (clip0 : Option String) :
    List Event × Option String :=
  let minimal_delay := max interval (1/50 : ℚ)
  let modifier_key := clipboard_modifier_key darwin
  let opening : List Event :=
    [.log "Clipboard input: start", .log "Clipboard input: using paste delay"]
  if available = false then
    (opening ++ [.log "Clipboard input: pyperclip unavailable, falling back to typing"] ++
       typewrite_pynput text interval, clip0)
  else
    let readEvents := clipboardReadEvents text pasteRaises clip0
    let previous_clipboard : Option String := if pasteRaises then none else clip0
    if copyRaises then
      (opening ++ readEvents ++
         [.clipCopy text, .log "Clipboard input: failed to copy text; falling back to typing"] ++
         typewrite_pynput text interval, clip0)
    else
      let pasteEvents : List Event :=
        [.clipCopy text, .log "Clipboard input: copied new text",
         .sleep minimal_delay, .log "Clipboard input: invoking paste hotkey",
         .press modifier_key, .press (.ch 'v'), .release (.ch 'v'), .release modifier_key,
         .sleep minimal_delay, .log "Clipboard input: post-paste delay complete"]
      let restored := clipboardRestore text restoreRaises previous_clipboard
      (opening ++ readEvents ++ pasteEvents ++ restored.1 ++
         [.log "Clipboard input: completion path reached"], restored.2)

/-- The mutable fields of an `InputSimulator` object: the configured
method string, the optional persistent dotool process handle (its pid),
and whether the pynput controller handle exists. -/
structure SimState where
  input_method : String
  dotool_process : Option Nat
  keyboard : Bool
deriving DecidableEq, Repr

/-- `__init__` (lines 37-48): read the configured method; eagerly create
the pynput controller for `pynput`/`clipboard`; spawn the dotool child
for `dotool` (the spawned pid is passed in).  No other branch exists:
any other method string yields a simulator with neither handle. -/
def initInputSimulator (input_method : String) (pid : Nat) : SimState :=
  { input_method := input_method
    dotool_process := if input_method = "dotool" then some pid else none
    keyboard := input_method = "pynput" ∨ input_method = "clipboard" }

/-- `_terminate_dotool` (lines 57-63): if a process handle is present,
send it SIGINT and clear the handle; otherwise do nothing. -/
def terminate_dotool (s : SimState) : SimState × List Event :=
  match s.dotool_process with
  | some pid => ({ s with dotool_process := none }, [.kill pid])
  | none => (s, [])

/-- `cleanup` (lines 193-198): terminate the dotool process only when
the configured method is `dotool`. -/
def cleanup (s : SimState) : SimState × List Event :=
  if s.input_method = "dotool" then terminate_dotool s else (s, [])

/-- The outcome oracles a single `typewrite` call may consult, plus the
clipboard content before the call. -/
structure TypewriteEnv where
  darwin : Bool
  available : Bool
  pasteRaises : Bool
  copyRaises : Bool
  restoreRaises : Bool
  ydotoolOutcome : RunOutcome
  clip : Option String
deriving DecidableEq, Repr

/-- `typewrite(text)` (lines 65-80): dispatch on the configured method.
Returns `none` when control does not come back to the caller: the
one-shot backend calling `exit(1)` or raising an uncaught spawn error,
or the `assert self.dotool_process` in `_typewrite_dotool` failing.
Otherwise returns the updated object state, the event trace, and the
clipboard content after the call.  An unrecognized method matches no
branch of the if/elif chain and does nothing. -/
def typewrite (env : TypewriteEnv) (text : String) (interval : ℚ)
    (s : SimState) : Option (SimState × List Event × Option String) :=
  if s.input_method = "pynput" then
    some ({ s with keyboard := true }, typewrite_pynput text interval, env.clip)
  else if s.input_method = "clipboard" then
    let r := typewrite_clipboard text interval env.darwin env.available
      env.pasteRaises env.copyRaises env.restoreRaises env.clip
    some ({ s with keyboard := true }, r.1, r.2)
  else if s.input_method = "ydotool" then
    match typewrite_ydotool text interval env.ydotoolOutcome with
    | (ev, .normal) => some (s, ev, env.clip)
    | (_, .exited _) => none
    | (_, .raised) => none
  else if s.input_method = "dotool" then
    match s.dotool_process with
    | some _ => some (s, typewrite_dotool text interval, env.clip)
    | none => none
  else
    some (s, [], env.clip)

/-- One externally invoked operation on the simulator object. -/
inductive Op where
  | typewriteOp (env : TypewriteEnv) (text : String) (interval : ℚ)
  | cleanupOp
deriving DecidableEq

/-- Run a sequence of operations from a state; `none` when some call
never returns (process exit, uncaught exception, failed assert). -/
def applyOps : List Op → SimState → Option SimState
  | [], s => some s
  | .typewriteOp env text i :: ops, s =>
      match typewrite env text i s with
      | none => none
      | some r => applyOps ops r.1
  | .cleanupOp :: ops, s => applyOps ops (cleanup s).1

/-- The texts passed to `pyperclip.copy` during a trace, in order. -/
def clipCopiesOf (l : List Event) : List String :=
  l.filterMap fun e => match e with | .clipCopy s => some s | _ => none

/-- The durations of the sleeps in a trace, in order. -/
def sleepsOf (l : List Event) : List ℚ :=
  l.filterMap fun e => match e with | .sleep q => some q | _ => none

/-- The keys pressed in a trace, in order. -/
def pressesOf (l : List Event) : List PKey :=
  l.filterMap fun e => match e with | .press k => some k | _ => none

/-- The argv lists of the external commands invoked in a trace. -/
def cmdsOf (l : List Event) : List (List Arg) :=
  l.filterMap fun e => match e with | .runCmd a => some a | _ => none

/-- The lines written to the dotool pipe in a trace, in order. -/
def pipeWritesOf (l : List Event) : List PipeLine :=
  l.filterMap fun e => match e with | .pipeWrite l => some l | _ => none

lemma pynputKeystrokes_eq_flatMap (chars : List Char) (d : ℚ) :
    pynputKeystrokes chars d =
      chars.flatMap fun c => [.press (.ch c), .release (.ch c), .sleep d] := by
  induction chars with
  | nil => rfl
  | cons c rest ih => simp [pynputKeystrokes, ih]

lemma clipCopiesOf_pynput (chars : List Char) (d : ℚ) :
    clipCopiesOf (pynputKeystrokes chars d) = [] := by
  induction chars with
  | nil => rfl
  | cons c rest ih => simp [pynputKeystrokes, clipCopiesOf] at ih ⊢; exact ih

lemma sleepsOf_pynput (chars : List Char) (d : ℚ) :
    sleepsOf (pynputKeystrokes chars d) = chars.map fun _ => d := by
  induction chars with
  | nil => rfl
  | cons c rest ih => simp [pynputKeystrokes, sleepsOf] at ih ⊢; exact ih

lemma pressesOf_pynput (chars : List Char) (d : ℚ) :
    pressesOf (pynputKeystrokes chars d) = chars.map PKey.ch := by
  induction chars with
  | nil => rfl
  | cons c rest ih => simp [pynputKeystrokes, pressesOf] at ih ⊢; exact ih

lemma press_mem_pynput (chars : List Char) (d : ℚ) (k : PKey)
    (h : Event.press k ∈ pynputKeystrokes chars d) : ∃ c, k = PKey.ch c := by
  induction chars with
  | nil => simp [pynputKeystrokes] at h
  | cons c rest ih =>
      simp only [pynputKeystrokes, List.mem_cons] at h
      rcases h with h | h | h | h
      · exact ⟨c, by injection h⟩
      · exact absurd h (by simp)
      · exact absurd h (by simp)
      · exact ih h

lemma clipRead_not_mem_pynput (chars : List Char) (d : ℚ) :
    Event.clipRead ∉ pynputKeystrokes chars d := by
  induction chars with
  | nil => simp [pynputKeystrokes]
  | cons c rest ih => simp [pynputKeystrokes, ih]

lemma clipCopiesOf_append (a b : List Event) :
    clipCopiesOf (a ++ b) = clipCopiesOf a ++ clipCopiesOf b :=
  List.filterMap_append a b _

lemma sleepsOf_append (a b : List Event) :
    sleepsOf (a ++ b) = sleepsOf a ++ sleepsOf b :=
  List.filterMap_append a b _

lemma clipCopiesOf_typewrite_pynput (text : String) (i : ℚ) :
    clipCopiesOf (typewrite_pynput text i) = [] :=
  clipCopiesOf_pynput text.toList i

lemma clipboardReadEvents_spec (text : String) (pr : Bool) (c0 : Option String) :
    clipCopiesOf (clipboardReadEvents text pr c0) = []
    ∧ sleepsOf (clipboardReadEvents text pr c0) = []
    ∧ ∀ k, Event.press k ∉ clipboardReadEvents text pr c0 := by
  cases pr with
  | true => simp [clipboardReadEvents, clipCopiesOf, sleepsOf]
  | false =>
      cases c0 with
      | none => simp [clipboardReadEvents, clipCopiesOf, sleepsOf]
      | some v =>
          by_cases h : v = text <;>
            simp [clipboardReadEvents, h, clipCopiesOf, sleepsOf]

lemma clipboardRestore_spec (text : String) (rr : Bool) (prev : Option String) :
    sleepsOf (clipboardRestore text rr prev).1 = []
    ∧ ∀ k, Event.press k ∉ (clipboardRestore text rr prev).1 := by
  cases prev with
  | none => simp [clipboardRestore, sleepsOf]
  | some v =>
      by_cases h : v = text
      · simp [clipboardRestore, h, sleepsOf]
      · cases rr <;> simp [clipboardRestore, h, sleepsOf]

/-- **C1.** On the dotool (external-stream) backend, `typewrite(T)` with
delay `d` writes exactly two lines to the child process pipe — first the
`typedelay` directive carrying `d * 1000` milliseconds, then the `type`
directive carrying `T` — in that order, followed by a flush, and never
reads from the pipe. -/
theorem dotool_two_lines_then_flush (text : String) (d : ℚ) :
    typewrite_dotool text d =
      [Event.pipeWrite (.typedelay (d * 1000)),
       Event.pipeWrite (.typeText text), Event.pipeFlush]
    ∧ pipeWritesOf (typewrite_dotool text d) =
        [.typedelay (d * 1000), .typeText text]
    ∧ Event.pipeRead ∉ typewrite_dotool text d := by
  refine ⟨rfl, rfl, ?_⟩
  simp [typewrite_dotool]

/-- **C4.** The direct-key (pynput) backend emits exactly one press
immediately followed by one release per character, in the order of the
characters of the text, and sleeps the delay after each character
(including the last). -/
theorem pynput_one_press_release_per_char (text : String) (d : ℚ)
    (hd : 0 ≤ d) :
    typewrite_pynput text d =
      text.toList.flatMap
        (fun c => [Event.press (.ch c), Event.release (.ch c), Event.sleep d])
    ∧ pressesOf (typewrite_pynput text d) = text.toList.map PKey.ch
    ∧ sleepsOf (typewrite_pynput text d) = text.toList.map fun _ => d :=
  ⟨pynputKeystrokes_eq_flatMap _ _, pressesOf_pynput _ _, sleepsOf_pynput _ _⟩

theorem pynput_one_press_release_per_char_witness :
    (0 : ℚ) ≤ 1/20
    ∧ ("hi".toList.flatMap
         (fun c => [Event.press (.ch c), Event.release (.ch c), Event.sleep (1/20)]) =
        [Event.press (.ch 'h'), Event.release (.ch 'h'), Event.sleep (1/20),
         Event.press (.ch 'i'), Event.release (.ch 'i'), Event.sleep (1/20)])
    ∧ typewrite_pynput "hi" (1/20) =
        [Event.press (.ch 'h'), Event.release (.ch 'h'), Event.sleep (1/20),
         Event.press (.ch 'i'), Event.release (.ch 'i'), Event.sleep (1/20)] :=
  ⟨by norm_num, by rfl,
   ((pynput_one_press_release_per_char "hi" (1/20) (by norm_num)).1).trans (by rfl)⟩

/-- **C7.** Every ydotool (external one-shot) `typewrite` invokes exactly
one external command, `ydotool type --key-delay str(d*1000) -- text`;
a non-zero exit of that command ends the host process (`exit(1)`), and a
spawn failure raises an exception no handler in the program catches,
which also ends the host process. -/
theorem ydotool_single_command_and_fatal_failures (text : String) (d : ℚ)
    (outcome : RunOutcome) :
    cmdsOf (typewrite_ydotool text d outcome).1 =
      [[Arg.str "ydotool", Arg.str "type", Arg.str "--key-delay",
        Arg.msArg (d * 1000), Arg.str "--", Arg.str text]]
    ∧ terminatesHostProcess (typewrite_ydotool text d .nonzeroExit).2 = true
    ∧ terminatesHostProcess (typewrite_ydotool text d .spawnFailure).2 = true
    ∧ (typewrite_ydotool text d .success).2 = .normal := by
  cases outcome <;>
    simp [typewrite_ydotool, run_command_or_exit_on_failure, cmdsOf,
      terminatesHostProcess]

/-- **C2.** On the clipboard backend, when every clipboard operation of
the call succeeds: if the clipboard was readable and held `V ≠ text`, the
copies issued are exactly the write of `text` followed by the restore of
`V`, and the clipboard holds `V` afterwards; if the clipboard already
held `text`, or was unreadable (a `None` read or a read that raised),
the only copy issued is the write of `text` — no restore copy. -/
theorem clipboard_restore_semantics (text V : String) (i : ℚ) (darwin : Bool)
    (hne : V ≠ text) :
    (clipCopiesOf (typewrite_clipboard text i darwin true false false false (some V)).1
        = [text, V]
      ∧ (typewrite_clipboard text i darwin true false false false (some V)).2 = some V)
    ∧ (clipCopiesOf (typewrite_clipboard text i darwin true false false false (some text)).1
        = [text]
      ∧ (typewrite_clipboard text i darwin true false false false (some text)).2 = some text)
    ∧ clipCopiesOf (typewrite_clipboard text i darwin true false false false none).1 = [text]
    ∧ clipCopiesOf (typewrite_clipboard text i darwin true true false false (some V)).1 = [text] := by
  refine ⟨⟨?_, ?_⟩, ⟨?_, ?_⟩, ?_, ?_⟩ <;>
    simp [typewrite_clipboard, clipboardReadEvents, clipboardRestore, hne,
      clipCopiesOf, clipCopiesOf_pynput]

theorem clipboard_restore_semantics_witness :
    "old" ≠ "new"
    ∧ ((clipCopiesOf (typewrite_clipboard "new" (1/100) false true false false false (some "old")).1
          = ["new", "old"]
        ∧ (typewrite_clipboard "new" (1/100) false true false false false (some "old")).2 = some "old")
      ∧ (clipCopiesOf (typewrite_clipboard "new" (1/100) false true false false false (some "new")).1
           = ["new"]
         ∧ (typewrite_clipboard "new" (1/100) false true false false false (some "new")).2 = some "new")
      ∧ clipCopiesOf (typewrite_clipboard "new" (1/100) false true false false false none).1 = ["new"]
      ∧ clipCopiesOf (typewrite_clipboard "new" (1/100) false true true false false (some "old")).1
          = ["new"]) :=
  ⟨by decide, clipboard_restore_semantics "new" "old" (1/100) false (by decide)⟩

/-- **C3.** On the clipboard backend, when the clipboard write of the
text raises, the trace ends with the full direct-key typing of the
original text at the original interval (the fallback), every key pressed
during the call is a plain character (so no paste-modifier hotkey is
issued), the only `pyperclip.copy` call is the failed write (no restore
attempt), and the clipboard content is unchanged. -/
theorem clipboard_copy_failure_falls_back (text : String) (i : ℚ)
    (darwin pr rr : Bool) (clip0 : Option String) :
    (∃ pre, (typewrite_clipboard text i darwin true pr true rr clip0).1
        = pre ++ typewrite_pynput text i
      ∧ ∀ k, Event.press k ∉ pre)
    ∧ (∀ k, Event.press k ∈ (typewrite_clipboard text i darwin true pr true rr clip0).1 →
        ∃ c, k = PKey.ch c)
    ∧ clipCopiesOf (typewrite_clipboard text i darwin true pr true rr clip0).1 = [text]
    ∧ (typewrite_clipboard text i darwin true pr true rr clip0).2 = clip0 := by
  have hread := clipboardReadEvents_spec text pr clip0
  have htrace : (typewrite_clipboard text i darwin true pr true rr clip0).1 =
      ([.log "Clipboard input: start", .log "Clipboard input: using paste delay"] ++
        clipboardReadEvents text pr clip0 ++
        [.clipCopy text, .log "Clipboard input: failed to copy text; falling back to typing"]) ++
        typewrite_pynput text i := by
    simp [typewrite_clipboard]
  refine ⟨⟨_, htrace, ?_⟩, ?_, ?_, ?_⟩
  · intro k hk
    simp only [List.mem_append, List.mem_cons, List.mem_singleton] at hk
    rcases hk with (hk | hk) | hk | hk
    · simp at hk
    · exact hread.2.2 k hk
    · exact Event.noConfusion hk
    · simp at hk
  · intro k hk
    rw [htrace] at hk
    rcases List.mem_append.mp hk with hk | hk
    · simp only [List.mem_append, List.mem_cons, List.mem_singleton] at hk
      rcases hk with (hk | hk) | hk | hk
      · simp at hk
      · exact absurd hk (hread.2.2 k)
      · exact Event.noConfusion hk
      · simp at hk
    · exact press_mem_pynput _ _ _ hk
  · rw [htrace]
    simp only [clipCopiesOf_append, hread.1, clipCopiesOf_typewrite_pynput]
    rfl
  · simp [typewrite_clipboard]

/-- **C5.** On the clipboard backend, whenever the clipboard write
succeeds, the trace contains the write of the text, then a sleep of
exactly `max interval (1/50)` (that is, `max(i, 0.02)` seconds), then
the paste hotkey (modifier held around press/release of `v`), then a
second sleep of the same `max interval (1/50)` before the restore
decision — and no other sleep occurs anywhere in the call. -/
theorem clipboard_settle_delays (text : String) (i : ℚ)
    (darwin pr rr : Bool) (clip0 : Option String) :
    ∃ pre post,
      (typewrite_clipboard text i darwin true pr false rr clip0).1 =
        pre ++
          [Event.clipCopy text, Event.log "Clipboard input: copied new text",
           Event.sleep (max i (1/50)), Event.log "Clipboard input: invoking paste hotkey",
           Event.press (clipboard_modifier_key darwin), Event.press (.ch 'v'),
           Event.release (.ch 'v'), Event.release (clipboard_modifier_key darwin),
           Event.sleep (max i (1/50)), Event.log "Clipboard input: post-paste delay complete"] ++
          post
      ∧ sleepsOf pre = [] ∧ sleepsOf post = [] := by
  refine ⟨[.log "Clipboard input: start", .log "Clipboard input: using paste delay"] ++
      clipboardReadEvents text pr clip0,
    (clipboardRestore text rr (if pr then none else clip0)).1 ++
      [.log "Clipboard input: completion path reached"], ?_, ?_, ?_⟩
  · simp [typewrite_clipboard]
  · simp only [sleepsOf_append, (clipboardReadEvents_spec text pr clip0).2.1]
    rfl
  · simp only [sleepsOf_append,
      (clipboardRestore_spec text rr (if pr then none else clip0)).1]
    rfl

/-- **C10.** When the `pyperclip` import failed, a clipboard-backend
`typewrite` performs no clipboard read and no clipboard copy (so no
write, no restore), presses only plain characters (so no paste hotkey),
leaves the clipboard untouched, and instead types the entire text via
the direct-key backend at the configured interval. -/
theorem pyperclip_unavailable_falls_back (text : String) (i : ℚ)
    (darwin pr cr rr : Bool) (clip0 : Option String) :
    (typewrite_clipboard text i darwin false pr cr rr clip0).1 =
      [Event.log "Clipboard input: start", Event.log "Clipboard input: using paste delay",
       Event.log "Clipboard input: pyperclip unavailable, falling back to typing"] ++
        typewrite_pynput text i
    ∧ clipCopiesOf (typewrite_clipboard text i darwin false pr cr rr clip0).1 = []
    ∧ Event.clipRead ∉ (typewrite_clipboard text i darwin false pr cr rr clip0).1
    ∧ (∀ k, Event.press k ∈ (typewrite_clipboard text i darwin false pr cr rr clip0).1 →
        ∃ c, k = PKey.ch c)
    ∧ (typewrite_clipboard text i darwin false pr cr rr clip0).2 = clip0 := by
  have htrace : (typewrite_clipboard text i darwin false pr cr rr clip0).1 =
      [Event.log "Clipboard input: start", Event.log "Clipboard input: using paste delay",
       Event.log "Clipboard input: pyperclip unavailable, falling back to typing"] ++
        typewrite_pynput text i := by
    simp [typewrite_clipboard]
  refine ⟨htrace, ?_, ?_, ?_, ?_⟩
  · rw [htrace]
    simp only [clipCopiesOf_append, clipCopiesOf_typewrite_pynput]
    rfl
  · rw [htrace]
    simp
    exact clipRead_not_mem_pynput _ _
  · intro k hk
    rw [htrace] at hk
    rcases List.mem_append.mp hk with hk | hk
    · simp at hk
    · exact press_mem_pynput _ _ _ hk
  · simp [typewrite_clipboard]

/-- **C6.** `cleanup()` on the dotool (external-stream) backend is
idempotent: when a process handle is alive, the call sends exactly one
SIGINT to it and clears the handle; when no process is alive, it sends
no signal and changes nothing; and a second `cleanup` after any first
one sends no signal and changes nothing. -/
theorem cleanup_idempotent (s : SimState) (pid : Nat)
    (hm : s.input_method = "dotool") :
    (s.dotool_process = some pid →
      cleanup s = ({ s with dotool_process := none }, [Event.kill pid]))
    ∧ (s.dotool_process = none → cleanup s = (s, []))
    ∧ cleanup (cleanup s).1 = ((cleanup s).1, []) := by
  refine ⟨fun h => ?_, fun h => ?_, ?_⟩
  · simp [cleanup, terminate_dotool, hm, h]
  · simp [cleanup, terminate_dotool, hm, h]
  · rcases hp : s.dotool_process with _ | p <;>
      simp [cleanup, terminate_dotool, hm, hp]

theorem cleanup_idempotent_witness :
    ((⟨"dotool", some 5, false⟩ : SimState).dotool_process = some 5 →
      cleanup ⟨"dotool", some 5, false⟩ =
        ({ (⟨"dotool", some 5, false⟩ : SimState) with dotool_process := none },
         [Event.kill 5]))
    ∧ ((⟨"dotool", some 5, false⟩ : SimState).dotool_process = none →
      cleanup ⟨"dotool", some 5, false⟩ = (⟨"dotool", some 5, false⟩, []))
    ∧ cleanup (cleanup ⟨"dotool", some 5, false⟩).1 =
        ((cleanup ⟨"dotool", some 5, false⟩).1, []) :=
  cleanup_idempotent ⟨"dotool", some 5, false⟩ 5 rfl

lemma typewrite_preserves (env : TypewriteEnv) (text : String) (i : ℚ)
    (s : SimState) (r : SimState × List Event × Option String)
    (h : typewrite env text i s = some r) :
    r.1.input_method = s.input_method ∧ r.1.dotool_process = s.dotool_process := by
  unfold typewrite at h
  split_ifs at h
  · injection h with h
    subst h
    exact ⟨rfl, rfl⟩
  · injection h with h
    subst h
    exact ⟨rfl, rfl⟩
  · split at h
    · injection h with h
      subst h
      exact ⟨rfl, rfl⟩
    · exact Option.noConfusion h
    · exact Option.noConfusion h
  · split at h
    · injection h with h
      subst h
      exact ⟨rfl, rfl⟩
    · exact Option.noConfusion h
  · injection h with h
    subst h
    exact ⟨rfl, rfl⟩

lemma cleanup_fst_input_method (s : SimState) :
    (cleanup s).1.input_method = s.input_method := by
  unfold cleanup terminate_dotool
  split_ifs <;> rcases hp : s.dotool_process with _ | p <;> simp [hp]

lemma cleanup_fst_dotool_process (s : SimState) :
    (cleanup s).1.dotool_process =
      if s.input_method = "dotool" then none else s.dotool_process := by
  unfold cleanup terminate_dotool
  split_ifs <;> rcases hp : s.dotool_process with _ | p <;> simp [hp]

lemma applyOps_handle_inv : ∀ (ops : List Op) (s sf : SimState),
    applyOps ops s = some sf →
    (s.dotool_process.isSome = true → s.input_method = "dotool") →
    sf.input_method = s.input_method ∧
      (sf.dotool_process.isSome = true ↔
        (s.dotool_process.isSome = true ∧ Op.cleanupOp ∉ ops)) := by
  intro ops
  induction ops with
  | nil =>
      intro s sf h _
      rw [applyOps] at h
      injection h with h
      subst h
      simp
  | cons op rest ih =>
      intro s sf h hc
      cases op with
      | typewriteOp env text i =>
          rw [applyOps] at h
          rcases ht : typewrite env text i s with _ | r
          · rw [ht] at h
            exact Option.noConfusion h
          · rw [ht] at h
            obtain ⟨hm, hp⟩ := typewrite_preserves env text i s r ht
            have hc2 : r.1.dotool_process.isSome = true → r.1.input_method = "dotool" := by
              rw [hm, hp]; exact hc
            obtain ⟨a, b⟩ := ih r.1 sf h hc2
            refine ⟨a.trans hm, ?_⟩
            rw [b, hp]
            simp
      | cleanupOp =>
          rw [applyOps] at h
          have hm := cleanup_fst_input_method s
          have hp := cleanup_fst_dotool_process s
          by_cases hd : s.input_method = "dotool"
          · rw [if_pos hd] at hp
            have hc2 : (cleanup s).1.dotool_process.isSome = true →
                (cleanup s).1.input_method = "dotool" := by
              rw [hp]; simp
            obtain ⟨a, b⟩ := ih (cleanup s).1 sf h hc2
            refine ⟨a.trans hm, ?_⟩
            rw [b, hp]
            simp
          · rw [if_neg hd] at hp
            have hsp : s.dotool_process.isSome = false := by
              rcases hq : s.dotool_process.isSome with _ | _
              · rfl
              · exact absurd (hc hq) hd
            have hc2 : (cleanup s).1.dotool_process.isSome = true →
                (cleanup s).1.input_method = "dotool" := by
              rw [hp, hm]; exact hc
            obtain ⟨a, b⟩ := ih (cleanup s).1 sf h hc2
            refine ⟨a.trans hm, ?_⟩
            rw [b, hp, hsp]
            simp

/-- **C8.** In every state reachable by construction followed by any
sequence of `typewrite` and `cleanup` calls that all return, the method
string is unchanged and the persistent dotool process handle (the one
`Option`-valued handle field, so at most one handle) is present iff the
configured method is `dotool` and no `cleanup` occurred in the
sequence. -/
theorem dotool_handle_invariant (method : String) (pid : Nat) (ops : List Op)
    (sf : SimState)
    (h : applyOps ops (initInputSimulator method pid) = some sf) :
    sf.input_method = method ∧
      (sf.dotool_process.isSome = true ↔
        (method = "dotool" ∧ Op.cleanupOp ∉ ops)) := by
  have hinit_p : (initInputSimulator method pid).dotool_process.isSome = true ↔
      method = "dotool" := by
    unfold initInputSimulator
    split_ifs with hh <;> simp [hh]
  have hc : (initInputSimulator method pid).dotool_process.isSome = true →
      (initInputSimulator method pid).input_method = "dotool" :=
    fun hh => hinit_p.mp hh
  obtain ⟨a, b⟩ := applyOps_handle_inv ops (initInputSimulator method pid) sf h hc
  rw [hinit_p] at b
  exact ⟨a, b⟩

theorem dotool_handle_invariant_witness :
    applyOps [Op.cleanupOp] (initInputSimulator "dotool" 7) =
      some ⟨"dotool", none, false⟩
    ∧ ((⟨"dotool", none, false⟩ : SimState).input_method = "dotool" ∧
        ((⟨"dotool", none, false⟩ : SimState).dotool_process.isSome = true ↔
          ("dotool" = "dotool" ∧ Op.cleanupOp ∉ [Op.cleanupOp]))) :=
  ⟨by decide, dotool_handle_invariant "dotool" 7 [Op.cleanupOp] ⟨"dotool", none, false⟩ (by decide)⟩

/-- **C9, counterexample.** The constructor accepts the method string
`"fake-method"`, which names none of the four strategies: it returns a
simulator with no process handle and no key-event emitter (no rejection
branch exists in `__init__`), and `typewrite` on that simulator matches
no dispatch branch, returning normally with an empty event trace and an
unchanged state — the silent no-op the claim says cannot happen. -/
theorem unknown_method_counterexample :
    (initInputSimulator "fake-method" 0).dotool_process = none
    ∧ (initInputSimulator "fake-method" 0).keyboard = false
    ∧ typewrite ⟨false, true, false, false, false, RunOutcome.success, some "clip"⟩
        "hello" 0 (initInputSimulator "fake-method" 0) =
      some (initInputSimulator "fake-method" 0, [], some "clip") := by
  refine ⟨rfl, by decide, by decide⟩

/-- **C9, amended.** Construction with a method string outside the four
enumerated strategies succeeds, producing a simulator with neither an
emitter handle nor a child process, and every `typewrite` call on it
silently does nothing: it emits no events and leaves the state and the
clipboard unchanged. -/
theorem unknown_method_accepted_and_silent (method : String) (pid : Nat)
    (env : TypewriteEnv) (text : String) (i : ℚ)
    (h1 : method ≠ "pynput") (h2 : method ≠ "clipboard")
    (h3 : method ≠ "ydotool") (h4 : method ≠ "dotool") :
    initInputSimulator method pid = ⟨method, none, false⟩
    ∧ typewrite env text i (initInputSimulator method pid) =
        some (initInputSimulator method pid, [], env.clip) := by
  have hs : initInputSimulator method pid = ⟨method, none, false⟩ := by
    unfold initInputSimulator
    simp [h1, h2, h4]
  refine ⟨hs, ?_⟩
  unfold typewrite
  rw [hs]
  simp [h1, h2, h3, h4]

theorem unknown_method_accepted_and_silent_witness :
    initInputSimulator "bogus" 3 = ⟨"bogus", none, false⟩
    ∧ typewrite ⟨false, true, false, false, false, RunOutcome.success, none⟩
        "abc" 0 (initInputSimulator "bogus" 3) =
      some (initInputSimulator "bogus" 3, [], none) :=
  unknown_method_accepted_and_silent "bogus" 3
    ⟨false, true, false, false, false, RunOutcome.success, none⟩ "abc" 0
    (by decide) (by decide) (by decide) (by decide)

end InputSimulation
